import Mathlib

/-!
Verification development for the mermAId diagram-generation extension.

Strings from the TypeScript source are modelled as `List Char`; the
JavaScript string operations used by the code (`startsWith`-style anchored
regexes, `includes`, `indexOf`, `trim`) are embedded as executable functions
on character lists.
-/

namespace MermAId

/-- ASCII whitespace test covering the characters stripped by JS `trim`
that can occur in the model output handled here. -/
def isWS (c : Char) : Bool := c == ' ' || c == '\t' || c == '\n' || c == '\r'

/-- `startsWithL pat l` holds when `pat` is an initial segment of `l`
(JS `String.startsWith`, or a `^`-anchored regex literal match). -/
def startsWithL : List Char → List Char → Bool
  | [], _ => true
  | _ :: _, [] => false
  | a :: as, b :: bs => a == b && startsWithL as bs

/-- `endsWithL pat l` holds when `pat` is a final segment of `l`
(JS `String.endsWith`, or a `$`-anchored regex literal match;
JS `$` without the `m` flag matches only at the very end of the input). -/
def endsWithL (pat l : List Char) : Bool := startsWithL pat.reverse l.reverse

/-- `hasSub pat l` holds when `pat` occurs as a contiguous substring of `l`
(JS `String.includes` / `indexOf(...) >= 0`). -/
def hasSub (pat : List Char) : List Char → Bool
  | [] => pat.isEmpty
  | c :: cs => startsWithL pat (c :: cs) || hasSub pat cs

/-- The opening fence with the diagram-language tag: the regex
`/^```mermaid/` of the `Diagram` constructor. -/
def fenceOpenTag : List Char := "```mermaid".data

/-- The bare fence marker: the regex `/```$/` and the `indexOf` check. -/
def fenceMarker : List Char := "```".data

/-- Two consecutive backticks: the `part.value.includes` check that flips
the stream loop into diagram-capturing mode. -/
def twoBackticks : List Char := "``".data

/-- The diagram-language keyword checked by `mermaidDiagram.includes` on the
first validation failure. -/
def mermaidKw : List Char := "mermaid".data

/-- Strip leading whitespace (one side of JS `trim`). -/
def dropLeadWS (l : List Char) : List Char := l.dropWhile isWS

/-- Strip trailing whitespace (the other side of JS `trim`). -/
def dropTailWS (l : List Char) : List Char := (l.reverse.dropWhile isWS).reverse

/-- JS `String.trim`. -/
def trimWS (l : List Char) : List Char := dropTailWS (dropLeadWS l)

/-- `raw.replace(/^```mermaid/, '')`: remove the pattern when it is an
initial segment, otherwise leave the string unchanged. -/
def stripLead (pat l : List Char) : List Char :=
  if startsWithL pat l then l.drop pat.length else l

/-- `raw.replace(/```$/, '')`: remove the pattern when it is a final
segment, otherwise leave the string unchanged. -/
def stripTail (pat l : List Char) : List Char :=
  if endsWithL pat l then (l.reverse.drop pat.length).reverse else l

/-- The fence-stripping transformation performed by the `Diagram`
constructor (`extension.ts`): strip a leading ````` ```mermaid ````` marker,
strip a trailing ````` ``` ````` marker, then trim surrounding whitespace. -/
def normalize (raw : List Char) : List Char :=
  trimWS (stripTail fenceMarker (stripLead fenceOpenTag raw))

/-! Auxiliary facts about `dropWhile`-based trimming. -/

theorem dropWhile_head_false (p : Char → Bool) :
    ∀ (l : List Char) (c : Char) (cs : List Char),
      l.dropWhile p = c :: cs → p c = false := by
  intro l
  induction l with
  | nil => intro c cs h; simp [List.dropWhile] at h
  | cons a as ih =>
    intro c cs h
    rw [List.dropWhile_cons] at h
    by_cases hp : p a
    · rw [if_pos hp] at h; exact ih c cs h
    · rw [if_neg hp] at h
      cases h
      simpa using hp

theorem dropWhile_eq_self_of_head_false (p : Char → Bool) (l : List Char)
    (h : ∀ c cs, l = c :: cs → p c = false) : l.dropWhile p = l := by
  cases l with
  | nil => simp
  | cons a as =>
    rw [List.dropWhile_cons, if_neg]
    simp [h a as rfl]

theorem dropWhile_idem (p : Char → Bool) (l : List Char) :
    (l.dropWhile p).dropWhile p = l.dropWhile p := by
  apply dropWhile_eq_self_of_head_false
  intro c cs h
  exact dropWhile_head_false p l c cs h

/-- The trimmed string is an initial segment of the left-trimmed string. -/
theorem dropTailWS_append (l : List Char) :
    dropTailWS l ++ (l.reverse.takeWhile isWS).reverse = l := by
  rw [dropTailWS, ← List.reverse_append, List.takeWhile_append_dropWhile,
    List.reverse_reverse]

theorem dropLeadWS_trimWS (z : List Char) : dropLeadWS (trimWS z) = trimWS z := by
  apply dropWhile_eq_self_of_head_false
  intro c cs h
  have hm := dropTailWS_append (dropLeadWS z)
  rw [trimWS] at h
  rw [h] at hm
  exact dropWhile_head_false isWS z c (cs ++ ((dropLeadWS z).reverse.takeWhile isWS).reverse)
    hm.symm

theorem dropTailWS_trimWS (z : List Char) : dropTailWS (trimWS z) = trimWS z := by
  have hrev : (trimWS z).reverse = (dropLeadWS z).reverse.dropWhile isWS := by
    rw [trimWS, dropTailWS, List.reverse_reverse]
  rw [dropTailWS, hrev, dropWhile_idem, ← hrev, List.reverse_reverse]

theorem trimWS_idem (z : List Char) : trimWS (trimWS z) = trimWS z := by
  rw [trimWS, dropLeadWS_trimWS, dropTailWS_trimWS]

/-- C4 counterexample: `normalize` is not idempotent as claimed. On the
six-backtick input, one pass strips only the trailing fence and leaves a
bare fence marker, which a second pass strips as well. -/
theorem normalize_not_idem_cex :
    normalize (normalize "``````".data) ≠ normalize "``````".data := by decide

/-- C4 (amended): `normalize` is idempotent on every input whose normalized
form neither starts with the tagged opening fence nor ends with the bare
fence marker; on such inputs a second normalization is the identity. -/
theorem normalize_idem_of_no_marker (x : List Char)
    (h1 : startsWithL fenceOpenTag (normalize x) = false)
    (h2 : endsWithL fenceMarker (normalize x) = false) :
    normalize (normalize x) = normalize x := by
  conv_lhs => rw [normalize]
  rw [stripLead, if_neg (by simp [h1]), stripTail, if_neg (by simp [h2]), normalize]
  exact trimWS_idem _

/-- Witness for C4's amended theorem at the concrete input
`"```mermaid graph TD```"`, whose normalized form is `"graph TD"`. -/
theorem normalize_idem_of_no_marker_wit :
    startsWithL fenceOpenTag (normalize "```mermaid graph TD```".data) = false ∧
    endsWithL fenceMarker (normalize "```mermaid graph TD```".data) = false ∧
    normalize (normalize "```mermaid graph TD```".data) =
      normalize "```mermaid graph TD```".data :=
  ⟨by decide, by decide,
    normalize_idem_of_no_marker "```mermaid graph TD```".data (by decide) (by decide)⟩

/-! The stream loop of `runWithFunctions` (chatParticipant.ts): chunks of a
model response after the provider-shape adaptation are either text parts or
tool-call parts. -/

/-- One adapted chunk of the model response stream. Tool-call parts are
identified by their call identifier. -/
inductive Part where
  | text (s : List Char)
  | tool (id : Nat)
deriving DecidableEq

/-- The mutable locals of the stream loop. `prose` records the successive
chunks passed to `stream.markdown` (the prose sink); `diagram` is the
`mermaidDiagram` buffer; `responseStr` and `totalResponse` mirror the
accumulator strings of the code. -/
structure StreamState where
  streaming : Bool
  diagram : List Char
  responseStr : List Char
  totalResponse : List Char
  prose : List (List Char)
  toolCalls : List Nat
deriving DecidableEq

/-- Loop-entry values of the stream locals. -/
def initStream : StreamState :=
  { streaming := false, diagram := [], responseStr := [], totalResponse := [],
    prose := [], toolCalls := [] }

/-- One iteration of the `for await (let part of response.stream)` body:
a text part flips into capturing mode when it contains two consecutive
backticks and the loop is not yet capturing, then goes to the diagram
buffer when capturing and to the prose sink otherwise; a tool-call part is
collected regardless of the capturing flag. -/
def stepPart (st : StreamState) (p : Part) : StreamState :=
  match p with
  | .text s =>
    if !st.streaming && hasSub twoBackticks s then
      { st with streaming := true, totalResponse := st.totalResponse ++ s,
                diagram := st.diagram ++ s }
    else if st.streaming then
      { st with diagram := st.diagram ++ s }
    else
      { st with prose := st.prose ++ [s], responseStr := st.responseStr ++ s }
  | .tool id => { st with toolCalls := st.toolCalls ++ [id] }

/-- The whole stream loop over one model response. -/
def processStream (parts : List Part) : StreamState :=
  parts.foldl stepPart initStream

/-- The text payload of a chunk, when it is a text chunk. -/
def textOf : Part → Option (List Char)
  | .text s => some s
  | .tool _ => none

/-- The call identifier of a chunk, when it is a tool-call chunk. -/
def toolIdOf : Part → Option Nat
  | .text _ => none
  | .tool id => some id

/-- A chunk that cannot flip the loop into capturing mode: a text chunk
without the fence-open marker, or any tool-call chunk (which never affects
the capturing flag). -/
def textMarkerFree (p : Part) : Bool :=
  match p with
  | .text s => !(hasSub twoBackticks s)
  | .tool _ => true

theorem foldl_prose (parts : List Part) :
    ∀ st : StreamState, st.streaming = false →
      (∀ p ∈ parts, textMarkerFree p = true) →
      List.foldl stepPart st parts =
        { st with
            prose := st.prose ++ parts.filterMap textOf,
            responseStr := st.responseStr ++ (parts.filterMap textOf).flatten,
            toolCalls := st.toolCalls ++ parts.filterMap toolIdOf } := by
  induction parts with
  | nil => intro st h1 h2; simp
  | cons p parts ih =>
    intro st h1 h2
    cases p with
    | text c =>
      have hc : hasSub twoBackticks c = false := by
        have := h2 (Part.text c) (by simp)
        simpa [textMarkerFree] using this
      have hstep : stepPart st (Part.text c) =
          { st with prose := st.prose ++ [c], responseStr := st.responseStr ++ c } := by
        rw [stepPart]
        simp [h1, hc]
      simp only [List.foldl_cons, hstep]
      rw [ih _ (by simp [h1]) (fun q hq => h2 q (by simp [hq]))]
      simp [List.filterMap_cons, textOf, toolIdOf, List.append_assoc]
    | tool id =>
      have hstep : stepPart st (Part.tool id) =
          { st with toolCalls := st.toolCalls ++ [id] } := rfl
      simp only [List.foldl_cons, hstep]
      rw [ih _ (by simp [h1]) (fun q hq => h2 q (by simp [hq]))]
      simp [List.filterMap_cons, textOf, toolIdOf, List.append_assoc]

theorem foldl_capturing (parts : List Part) :
    ∀ st : StreamState, st.streaming = true →
      List.foldl stepPart st parts =
        { st with
            diagram := st.diagram ++ (parts.filterMap textOf).flatten,
            toolCalls := st.toolCalls ++ parts.filterMap toolIdOf } := by
  induction parts with
  | nil => intro st h1; simp
  | cons p parts ih =>
    intro st h1
    cases p with
    | text s =>
      have hstep : stepPart st (Part.text s) = { st with diagram := st.diagram ++ s } := by
        rw [stepPart]
        simp [h1]
      simp only [List.foldl_cons, hstep]
      rw [ih _ (by simp [h1])]
      simp [List.filterMap_cons, textOf, toolIdOf, List.append_assoc]
    | tool id =>
      have hstep : stepPart st (Part.tool id) =
          { st with toolCalls := st.toolCalls ++ [id] } := rfl
      simp only [List.foldl_cons, hstep]
      rw [ih _ (by simp [h1])]
      simp [textOf, toolIdOf, List.append_assoc]

/-- C2: in every chunk sequence — text and tool-call chunks interleaved —
whose first text chunk containing the fence-open marker (two consecutive
backticks) is `c`, every text chunk before `c` is forwarded to the prose
sink, and from `c` onward every text chunk is appended to the diagram
buffer and none reaches the prose sink; and in a sequence with no marker in
any text chunk, the diagram buffer ends empty and every text chunk is
forwarded to the prose sink. -/
theorem stream_fence_split :
    (∀ (pre : List Part) (c : List Char) (post : List Part),
      (∀ p ∈ pre, textMarkerFree p = true) →
      hasSub twoBackticks c = true →
      (processStream (pre ++ Part.text c :: post)).prose = pre.filterMap textOf ∧
      (processStream (pre ++ Part.text c :: post)).diagram =
        c ++ (post.filterMap textOf).flatten) ∧
    (∀ parts : List Part,
      (∀ p ∈ parts, textMarkerFree p = true) →
      (processStream parts).prose = parts.filterMap textOf ∧
      (processStream parts).diagram = []) := by
  constructor
  · intro pre c post hpre hc
    rw [processStream]
    simp only [List.foldl_append, List.foldl_cons]
    have h1 : List.foldl stepPart initStream pre =
        ⟨false, [], (pre.filterMap textOf).flatten, [], pre.filterMap textOf,
          pre.filterMap toolIdOf⟩ := by
      rw [foldl_prose pre initStream rfl hpre]
      simp [initStream]
    have h2 : stepPart
        ⟨false, [], (pre.filterMap textOf).flatten, [], pre.filterMap textOf,
          pre.filterMap toolIdOf⟩ (Part.text c) =
        ⟨true, c, (pre.filterMap textOf).flatten, c, pre.filterMap textOf,
          pre.filterMap toolIdOf⟩ := by
      rw [stepPart]
      simp [hc]
    rw [h1, h2, foldl_capturing post _ rfl]
    exact ⟨rfl, rfl⟩
  · intro parts hparts
    rw [processStream, foldl_prose parts initStream rfl hparts]
    simp [initStream]

/-- Witness for C2 at concrete mixed chunk sequences: a tool call and a
prose chunk before the marker chunk, a tool call and a text chunk after it;
and a marker-free stream with a tool-call chunk. -/
theorem stream_fence_split_wit :
    ((processStream ([Part.tool 1, Part.text "Here ".data] ++
        Part.text "```mermaid".data ::
          [Part.tool 2, Part.text "A->B".data])).prose =
        [Part.tool 1, Part.text "Here ".data].filterMap textOf ∧
      (processStream ([Part.tool 1, Part.text "Here ".data] ++
        Part.text "```mermaid".data ::
          [Part.tool 2, Part.text "A->B".data])).diagram =
        "```mermaid".data ++
          ([Part.tool 2, Part.text "A->B".data].filterMap textOf).flatten) ∧
    ((processStream [Part.text "Here ".data, Part.tool 3,
        Part.text "prose".data]).prose =
        [Part.text "Here ".data, Part.tool 3,
          Part.text "prose".data].filterMap textOf ∧
      (processStream [Part.text "Here ".data, Part.tool 3,
        Part.text "prose".data]).diagram = []) :=
  ⟨stream_fence_split.1 [Part.tool 1, Part.text "Here ".data]
      "```mermaid".data [Part.tool 2, Part.text "A->B".data]
      (by decide) (by decide),
    stream_fence_split.2
      [Part.text "Here ".data, Part.tool 3, Part.text "prose".data]
      (by decide)⟩

/-! `DiagramEditorPanel._validate` (diagramEditorPanel.ts): replace the
panel's current diagram with the candidate, reject early on a literal fence
marker, otherwise load the validation webview and wait for the `parse-result`
message carrying the matching nonce. -/

/-- Reply of the mermaid renderer (the validation webview) for a diagram
source: parse success or a structured error. -/
inductive RenderReply where
  | ok
  | err (e : List Char)
deriving DecidableEq

/-- The panel state `_validate` reads and writes: the current diagram
(`this._diagram`), which a later `iterate` request reads back. -/
structure Panel where
  diagram : List Char
deriving DecidableEq

/-- Outcome of `_validate` as observed by the caller, together with whether
the renderer webview was ever loaded for the candidate. -/
structure VOutcome where
  success : Bool
  error : Option (List Char)
  rendererInvoked : Bool
deriving DecidableEq

/-- The error text of the early fence check. -/
def extraFenceErr : List Char := "diagram contains extra ``` characters".data

/-- Body of `_validate` after the candidate has been stored: the
`indexOf` fence check short-circuits before the webview is loaded;
otherwise the renderer decides. -/
def panelValidateGo (p : Panel) (render : List Char → RenderReply) :
    Panel × VOutcome :=
  if hasSub fenceMarker p.diagram then
    (p, { success := false, error := some extraFenceErr, rendererInvoked := false })
  else
    match render p.diagram with
    | .ok => (p, { success := true, error := none, rendererInvoked := true })
    | .err e => (p, { success := false, error := some e, rendererInvoked := true })

/-- `_validate(diagram?)`: when a candidate is passed, `this._diagram` is
replaced with it before any validity check runs. -/
def panelValidate (p : Panel) (candidate : Option (List Char))
    (render : List Char → RenderReply) : Panel × VOutcome :=
  match candidate with
  | some d => panelValidateGo { p with diagram := d } render
  | none => panelValidateGo p render

theorem panelValidateGo_fst (p : Panel) (render : List Char → RenderReply) :
    (panelValidateGo p render).1 = p := by
  rw [panelValidateGo]
  cases hf : hasSub fenceMarker p.diagram
  · cases hr : render p.diagram <;> simp [hf, hr]
  · simp [hf]

/-- C3: a candidate whose body contains the literal fence marker is rejected
by `_validate` immediately, with the dedicated error text, and the renderer
is never invoked for it. -/
theorem validate_fence_short_circuit (p : Panel) (d : List Char)
    (render : List Char → RenderReply) (h : hasSub fenceMarker d = true) :
    (panelValidate p (some d) render).2.success = false ∧
    (panelValidate p (some d) render).2.rendererInvoked = false ∧
    (panelValidate p (some d) render).2.error = some extraFenceErr := by
  simp [panelValidate, panelValidateGo, h]

/-- Witness for C3 at the concrete candidate `"a```b"` on a panel holding an
empty diagram, with a renderer that would accept anything. -/
theorem validate_fence_short_circuit_wit :
    hasSub fenceMarker "a```b".data = true ∧
    (panelValidate ⟨[]⟩ (some "a```b".data) (fun _ => RenderReply.ok)).2.success = false ∧
    (panelValidate ⟨[]⟩ (some "a```b".data) (fun _ => RenderReply.ok)).2.rendererInvoked
      = false ∧
    (panelValidate ⟨[]⟩ (some "a```b".data) (fun _ => RenderReply.ok)).2.error
      = some extraFenceErr :=
  ⟨by decide,
    validate_fence_short_circuit ⟨[]⟩ "a```b".data (fun _ => RenderReply.ok) (by decide)⟩

/-- C10: `_validate` stores the candidate into the panel's current-diagram
slot before checking validity, so whatever the outcome — in particular after
a failed validation — the panel's diagram (the one a later `iterate` request
reads) is the candidate just submitted, not the previously accepted one. -/
theorem validate_replaces_diagram_first (p : Panel) (d : List Char)
    (render : List Char → RenderReply) :
    (panelValidate p (some d) render).1.diagram = d := by
  rw [panelValidate, panelValidateGo_fst]

/-! The `parse-result` correlation protocol: the webview posts messages into
`this.parseDetails`, and the polling loop in `_validate` resolves with the
first recorded entry whose nonce matches, exactly once. -/

/-- One `parse-result` message recorded by the panel's message listener.
The nonce (a timestamp string in the code) is modelled as an opaque
number. -/
structure ParseDetail where
  nonce : Nat
  success : Bool
  error : List Char
deriving DecidableEq

/-- `this.parseDetails.find((p) => p.nonce === nonce)`: the entry the
polling loop delivers once it exists. -/
def delivered (nonce : Nat) (details : List ParseDetail) : Option ParseDetail :=
  details.find? (fun pd => pd.nonce == nonce)

/-- The recorded list only grows: later snapshots extend earlier ones. -/
def growsTo (d1 d2 : List ParseDetail) : Prop := ∃ u, d1 ++ u = d2

/-- The polling loop resolves at tick `t` with `pd`: the matching entry
exists at `t` and at no earlier tick (`clearInterval` stops the poll at the
first hit). -/
def resolvesAt (snapshots : Nat → List ParseDetail) (nonce t : Nat)
    (pd : ParseDetail) : Prop :=
  delivered nonce (snapshots t) = some pd ∧
    ∀ t' < t, delivered nonce (snapshots t') = none

theorem delivered_append_of_some (nonce : Nat) (d u : List ParseDetail)
    (pd : ParseDetail) (h : delivered nonce d = some pd) :
    delivered nonce (d ++ u) = some pd := by
  rw [delivered] at h ⊢
  induction d with
  | nil => simp at h
  | cons a as ih =>
    cases hm : a.nonce == nonce
    · rw [List.find?_cons_of_neg _ (by simp [hm])] at h
      rw [List.cons_append, List.find?_cons_of_neg _ (by simp [hm])]
      exact ih h
    · rw [List.find?_cons_of_pos _ (by simp [hm])] at h
      rw [List.cons_append, List.find?_cons_of_pos _ (by simp [hm])]
      exact h

/-- C8: at most one outcome is ever delivered per correlation token — the
poll resolves at a unique tick with a unique entry — and the delivered entry
is exactly the first recorded parse result whose nonce matches the request;
an entry with a different nonce is never consumed, and the delivered entry
is stable as the record list grows. -/
theorem validation_outcome_unique_first :
    (∀ (snapshots : Nat → List ParseDetail) (nonce t t' : Nat)
        (pd pd' : ParseDetail),
      resolvesAt snapshots nonce t pd → resolvesAt snapshots nonce t' pd' →
      t = t' ∧ pd = pd') ∧
    (∀ (nonce : Nat) (details : List ParseDetail) (pd : ParseDetail),
      delivered nonce details = some pd → pd.nonce = nonce) ∧
    (∀ (nonce : Nat) (pre post : List ParseDetail) (pd : ParseDetail),
      pd.nonce = nonce → (∀ q ∈ pre, q.nonce ≠ nonce) →
      delivered nonce (pre ++ pd :: post) = some pd) ∧
    (∀ (nonce : Nat) (d1 d2 : List ParseDetail) (pd : ParseDetail),
      growsTo d1 d2 → delivered nonce d1 = some pd →
      delivered nonce d2 = some pd) := by
  refine ⟨?_, ?_, ?_, ?_⟩
  · intro snapshots nonce t t' pd pd' h h'
    have ht : t = t' := by
      by_contra hne
      rcases Nat.lt_or_ge t t' with hlt | hge
      · have := h'.2 t hlt
        rw [h.1] at this
        exact Option.noConfusion this
      · have hlt : t' < t := lt_of_le_of_ne hge (fun e => hne e.symm)
        have := h.2 t' hlt
        rw [h'.1] at this
        exact Option.noConfusion this
    refine ⟨ht, ?_⟩
    rw [ht] at h
    have := h.1.symm.trans h'.1
    exact Option.some.inj this
  · intro nonce details pd h
    have := List.find?_some h
    simpa using this
  · intro nonce pre post pd hpd hpre
    rw [delivered]
    induction pre with
    | nil => simp [hpd]
    | cons q qs ih =>
      have hq : (q.nonce == nonce) = false := by
        simp [hpre q (by simp)]
      rw [List.cons_append, List.find?_cons_of_neg _ (by simp [hq])]
      exact ih (fun r hr => hpre r (by simp [hr]))
  · intro nonce d1 d2 pd hg h
    rcases hg with ⟨u, hu⟩
    rw [← hu]
    exact delivered_append_of_some nonce d1 u pd h

/-- Witness for C8 at a concrete snapshot history: the record list is empty
at tick 0 and from tick 1 on holds a stale entry with nonce 3 followed by
the matching entry with nonce 5. -/
theorem validation_outcome_unique_first_wit :
    (resolvesAt
        (fun t => if t = 0 then [] else [⟨3, false, []⟩, ⟨5, true, []⟩]) 5 1
        ⟨5, true, []⟩ →
      resolvesAt
        (fun t => if t = 0 then [] else [⟨3, false, []⟩, ⟨5, true, []⟩]) 5 1
        ⟨5, true, []⟩ →
      (1 = 1 ∧ (⟨5, true, []⟩ : ParseDetail) = ⟨5, true, []⟩)) ∧
    (delivered 5 [⟨3, false, []⟩, ⟨5, true, []⟩] = some ⟨5, true, []⟩ →
      (5 : Nat) = 5) ∧
    delivered 5 ([⟨3, false, []⟩] ++ ⟨5, true, []⟩ :: []) = some ⟨5, true, []⟩ ∧
    delivered 5 [⟨3, false, []⟩, ⟨5, true, []⟩, ⟨7, false, []⟩] = some ⟨5, true, []⟩ :=
  ⟨fun h h' => validation_outcome_unique_first.1 _ 5 1 1 _ _ h h',
    fun h => validation_outcome_unique_first.2.1 5 _ _ h,
    validation_outcome_unique_first.2.2.1 5 [⟨3, false, []⟩] [] ⟨5, true, []⟩ rfl
      (by decide),
    validation_outcome_unique_first.2.2.2 5 [⟨3, false, []⟩, ⟨5, true, []⟩]
      [⟨3, false, []⟩, ⟨5, true, []⟩, ⟨7, false, []⟩] ⟨5, true, []⟩
      ⟨[⟨7, false, []⟩], rfl⟩ (by decide)⟩

/-! Tool-call round accumulation (chatParticipant.ts together with
`ToolCallRound` of toolMetadata.ts and the prompt renderer). -/

/-- One recorded round: the prose accumulated for the model response plus
the full list of tool calls issued in that response. -/
structure ToolCallRound where
  response : List Char
  toolCalls : List Nat
deriving DecidableEq

/-- JS object-property assignment `m[k] = v` on the accumulated tool-result
record (whose keys, as object properties, are unique): replace the entry in
place when the key exists, append otherwise. -/
def setKey : List (Nat × List Char) → Nat → List Char → List (Nat × List Char)
  | [], k, v => [(k, v)]
  | e :: es, k, v => if e.1 == k then (k, v) :: es else e :: setKey es k v

/-- Property read `m[k]` on the accumulated tool-result record. -/
def lookupKey (m : List (Nat × List Char)) (k : Nat) : Option (List Char) :=
  (m.find? (fun e => e.1 == k)).map (fun e => e.2)

/-- Modelled from the spec: the metadata reported by the prompt renderer
`MermaidPrompt` (mermaidPrompt.tsx, whose source is not among the files
here). It re-renders the messages from the full round history plus the
accumulated tool-result map and invokes the external tools only for call
identifiers whose results are not yet in the map — "results must not be
re-requested from the invoker once present in the map" — reporting one
`ToolResultMetadata` entry per newly invoked call. -/
def renderPromptMeta (invoker : Nat → List Char) (rounds : List ToolCallRound)
    (m : List (Nat × List Char)) : List (Nat × List Char) :=
  ((rounds.map ToolCallRound.toolCalls).flatten.dedup.filter
    (fun id => (lookupKey m id).isNone)).map (fun id => (id, invoker id))

/-- The tool-call branch of `runWithFunctions`: append one `ToolCallRound`
holding the round's prose and full tool-call list, re-render the prompt
from the updated history and the accumulated map, and fold every returned
tool result into the map keyed by call identifier. -/
def toolRoundStep (invoker : Nat → List Char) (rounds : List ToolCallRound)
    (m : List (Nat × List Char)) (prose : List Char) (calls : List Nat) :
    List ToolCallRound × List (Nat × List Char) :=
  let rounds' := rounds ++ [⟨prose, calls⟩]
  let meta := renderPromptMeta invoker rounds' m
  (rounds', meta.foldl (fun acc e => setKey acc e.1 e.2) m)

theorem lookupKey_setKey_self (m : List (Nat × List Char)) (k : Nat)
    (v : List Char) : lookupKey (setKey m k v) k = some v := by
  induction m with
  | nil => simp [setKey, lookupKey]
  | cons a as ih =>
    rw [setKey]
    cases hk : a.1 == k
    · rw [if_neg (by simp [hk]), lookupKey,
        List.find?_cons_of_neg _ (by simp [hk])]
      exact ih
    · rw [if_pos (by simp), lookupKey, List.find?_cons_of_pos _ (by simp)]
      rfl

theorem lookupKey_setKey_ne (m : List (Nat × List Char)) (k k' : Nat)
    (v : List Char) (h : k' ≠ k) :
    lookupKey (setKey m k v) k' = lookupKey m k' := by
  have hkk' : ¬ (k = k') := Ne.symm h
  induction m with
  | nil =>
    rw [setKey, lookupKey, List.find?_cons_of_neg _ (by simpa using hkk')]
    rfl
  | cons a as ih =>
    rw [setKey]
    cases hk : a.1 == k
    · rw [if_neg (by simp [hk])]
      cases hk' : a.1 == k'
      · rw [lookupKey, List.find?_cons_of_neg _ (by simp [hk']), lookupKey,
          List.find?_cons_of_neg _ (by simp [hk'])]
        exact ih
      · rw [lookupKey, List.find?_cons_of_pos _ (by simp [hk']), lookupKey,
          List.find?_cons_of_pos _ (by simp [hk'])]
    · rw [if_pos (by simp)]
      have hak : a.1 = k := by simpa using hk
      rw [lookupKey, List.find?_cons_of_neg _ (by simpa using hkk'),
        lookupKey, List.find?_cons_of_neg _ (by simp [hak]; exact hkk')]

theorem foldl_setKey_not_mem (meta : List (Nat × List Char)) :
    ∀ (m : List (Nat × List Char)) (id : Nat),
      (∀ x ∈ meta, x.1 ≠ id) →
      lookupKey (meta.foldl (fun acc e => setKey acc e.1 e.2) m) id =
        lookupKey m id := by
  induction meta with
  | nil => intro m id _; rfl
  | cons x xs ih =>
    intro m id h
    rw [List.foldl_cons, ih _ id (fun y hy => h y (by simp [hy])),
      lookupKey_setKey_ne _ _ _ _ (fun e => h x (by simp) e.symm)]

theorem foldl_setKey_mem (meta : List (Nat × List Char)) :
    ∀ m : List (Nat × List Char), (meta.map Prod.fst).Nodup →
      ∀ e ∈ meta,
        lookupKey (meta.foldl (fun acc x => setKey acc x.1 x.2) m) e.1 = some e.2 := by
  induction meta with
  | nil => intro m _ e he; simp at he
  | cons x xs ih =>
    intro m hnd e he
    rw [List.map_cons, List.nodup_cons] at hnd
    rcases List.mem_cons.mp he with he | he
    · subst he
      rw [List.foldl_cons,
        foldl_setKey_not_mem xs _ e.1
          (fun y hy hey => hnd.1 (hey ▸ List.mem_map_of_mem Prod.fst hy))]
      exact lookupKey_setKey_self m e.1 e.2
    · rw [List.foldl_cons]
      exact ih _ hnd.2 e he

/-- C7: on a model response issuing tool calls, exactly one `ToolCallRound`
holding that response's prose and full tool-call list is appended; every
tool result returned by the prompt renderer is folded into the accumulated
map keyed by call identifier; and the map only grows — a recorded
identifier's result is never evicted or overwritten. The updated history
and map are what the recursive re-entry passes to the next prompt
construction. -/
theorem tool_round_accumulation (invoker : Nat → List Char)
    (rounds : List ToolCallRound) (m : List (Nat × List Char))
    (prose : List Char) (calls : List Nat) :
    (toolRoundStep invoker rounds m prose calls).1 =
      rounds ++ [⟨prose, calls⟩] ∧
    (∀ id v, lookupKey m id = some v →
      lookupKey (toolRoundStep invoker rounds m prose calls).2 id = some v) ∧
    (∀ e ∈ renderPromptMeta invoker (rounds ++ [⟨prose, calls⟩]) m,
      lookupKey (toolRoundStep invoker rounds m prose calls).2 e.1 = some e.2) := by
  refine ⟨rfl, ?_, ?_⟩
  · intro id v hv
    rw [toolRoundStep]
    refine (foldl_setKey_not_mem _ m id ?_).trans hv
    intro x hx
    rw [renderPromptMeta] at hx
    rcases List.mem_map.mp hx with ⟨i, hi, hxi⟩
    intro he
    have := (List.mem_filter.mp hi).2
    rw [← hxi] at he
    simp only at he
    rw [he, hv] at this
    simp at this
  · intro e he
    rw [toolRoundStep]
    refine foldl_setKey_mem _ m ?_ e he
    rw [renderPromptMeta, List.map_map]
    have : (Prod.fst ∘ fun id => ((id, invoker id) : Nat × List Char)) = id := rfl
    rw [this, List.map_id]
    exact List.Nodup.filter _ (List.nodup_dedup _)

/-- Witness for C7: a round issuing calls 1 and 2 on a map already holding a
result for call 1; the recorded result for 1 is kept and the new result for
2 is folded in. -/
theorem tool_round_accumulation_wit :
    (toolRoundStep (fun _ => "r".data) [] [(1, "old".data)] "p".data [1, 2]).1 =
      [] ++ [⟨"p".data, [1, 2]⟩] ∧
    lookupKey
      (toolRoundStep (fun _ => "r".data) [] [(1, "old".data)] "p".data [1, 2]).2 1 =
      some "old".data ∧
    lookupKey
      (toolRoundStep (fun _ => "r".data) [] [(1, "old".data)] "p".data [1, 2]).2 2 =
      some "r".data :=
  ⟨(tool_round_accumulation (fun _ => "r".data) [] [(1, "old".data)] "p".data
      [1, 2]).1,
    (tool_round_accumulation (fun _ => "r".data) [] [(1, "old".data)] "p".data
      [1, 2]).2.1 1 "old".data (by decide),
    (tool_round_accumulation (fun _ => "r".data) [] [(1, "old".data)] "p".data
      [1, 2]).2.2 (2, "r".data) (by decide)⟩

/-! The conversation loop `runWithFunctions` (chatParticipant.ts): per-turn
recursion over model invocations, with the retry counter, the corrective
injections, the tool-call branch, and the abandonment path. -/

/-- Messages of the evolving prompt. The corrective instructions the loop
can push are tagged; the initially rendered prompt content is opaque. -/
inductive Msg where
  | base (n : Nat)
  | keywordFix
  | nestingFix
  | retryFix (error diagram : List Char)
deriving DecidableEq

/-- Observable events of one turn: model invocations, prose chunks streamed
to the user, recorded tool rounds, retry messages, and the three terminal
outputs (acceptance, abandonment — whose error goes to the output log and
whose diagram text is streamed verbatim — and the missing-diagram notice of
the `iterate` pre-condition). -/
inductive Event where
  | modelInvoked (k : Nat)
  | proseOut (s : List Char)
  | toolRound (prose : List Char) (calls : List Nat)
  | retryMsg (error diagram : List Char)
  | accepted (diagram : List Char)
  | abandoned (error diagram : List Char)
  | noDiagramMsg
deriving DecidableEq

/-- External collaborators and request data of one turn: the `iterate`
command flag, the panel's current diagram, the stream of each model
invocation, the validator (`DiagramEditorPanel.createOrShow` on the built
`Diagram`, returning the success flag and the error text), the external
tool invoker, and the prompt re-renderer for tool rounds. -/
structure TurnEnv where
  isIterate : Bool
  currentDiagram : Option (List Char)
  responses : Nat → List Part
  validate : List Char → Bool × List Char
  invoker : Nat → List Char
  renderMsgs : List ToolCallRound → List (Nat × List Char) → List Msg

/-- What one turn produced: the event trace, the final message set, the
final retry counter, and the list of (invocation index, content) pairs
submitted to the validator. -/
structure LoopResult where
  events : List Event
  messages : List Msg
  retries : Nat
  validated : List (Nat × List Char)
deriving DecidableEq

/-- The parse-error handling block: `++retries`; on the first failure only,
push the missing-keyword instruction when the diagram text does not contain
the keyword anywhere (`mermaidDiagram.includes('mermaid')`), otherwise the
nested-definition instruction; then, when `retries < 4`, push the
literal-error retry message and loop again, else abandon. Returns the new
counter, the new message set, and whether the loop retries. -/
def handleFailure (retries : Nat) (msgs : List Msg) (diagram error : List Char) :
    Nat × List Msg × Bool :=
  let retries' := retries + 1
  let msgs1 :=
    if retries' = 1 then
      if hasSub mermaidKw diagram then msgs ++ [Msg.nestingFix]
      else msgs ++ [Msg.keywordFix]
    else msgs
  if retries' < 4 then (retries', msgs1 ++ [Msg.retryFix error diagram], true)
  else (retries', msgs1, false)

/-- The recursive body of the turn, with explicit fuel bounding the
recursion depth (the code's recursion is unbounded across tool rounds).
Arguments after the fuel mirror the closed-over locals: retry counter,
invocation index, message set, recorded tool rounds, accumulated tool
results. -/
def runWithFunctions (env : TurnEnv) :
    Nat → Nat → Nat → List Msg → List ToolCallRound → List (Nat × List Char) →
    LoopResult
  | 0, retries, _, msgs, _, _ => ⟨[], msgs, retries, []⟩
  | fuel + 1, retries, inv, msgs, rounds, acc =>
    if env.isIterate && env.currentDiagram.isNone then
      ⟨[Event.noDiagramMsg], msgs, retries, []⟩
    else
      let st := processStream (env.responses inv)
      let evs := Event.modelInvoked inv :: st.prose.map Event.proseOut
      if st.toolCalls.isEmpty then
        let vres := env.validate st.diagram
        if vres.1 then
          ⟨evs ++ [Event.accepted st.diagram], msgs, retries, [(inv, st.diagram)]⟩
        else
          let h := handleFailure retries msgs st.diagram vres.2
          if h.2.2 then
            let r := runWithFunctions env fuel h.1 (inv + 1) h.2.1 rounds acc
            ⟨evs ++ Event.retryMsg vres.2 st.diagram :: r.events, r.messages,
              r.retries, (inv, st.diagram) :: r.validated⟩
          else
            ⟨evs ++ [Event.abandoned vres.2 st.diagram], h.2.1, h.1,
              [(inv, st.diagram)]⟩
      else
        let step := toolRoundStep env.invoker rounds acc st.responseStr st.toolCalls
        let r := runWithFunctions env fuel retries (inv + 1)
          (env.renderMsgs step.1 step.2) step.1 step.2
        ⟨evs ++ Event.toolRound st.responseStr st.toolCalls :: r.events,
          r.messages, r.retries, r.validated⟩

/-- The diagram buffer captured from the k-th model invocation. -/
def capturedDiagram (env : TurnEnv) (k : Nat) : List Char :=
  (processStream (env.responses k)).diagram

/-- Recognizer for retry-message events. -/
def isRetryEvent : Event → Bool
  | .retryMsg _ _ => true
  | _ => false

/-- Recognizer for model-invocation events. -/
def isInvokeEvent : Event → Bool
  | .modelInvoked _ => true
  | _ => false

/-- Recognizer for the corrective instructions of the first failure. -/
def isCorrective : Msg → Bool
  | .keywordFix => true
  | .nestingFix => true
  | _ => false

/-- C5: a turn whose request is the `iterate` command with no diagram in
the panel ends immediately with the explanatory message, with zero model
invocations and zero validations — the check runs before any model call. -/
theorem iterate_without_diagram_aborts (env : TurnEnv) (fuel retries inv : Nat)
    (msgs : List Msg) (rounds : List ToolCallRound)
    (acc : List (Nat × List Char)) (hit : env.isIterate = true)
    (hnone : env.currentDiagram = none) (hfuel : 1 ≤ fuel) :
    runWithFunctions env fuel retries inv msgs rounds acc =
      ⟨[Event.noDiagramMsg], msgs, retries, []⟩ ∧
    (runWithFunctions env fuel retries inv msgs rounds acc).events.countP
      isInvokeEvent = 0 := by
  obtain ⟨f, rfl⟩ : ∃ f, fuel = f + 1 := ⟨fuel - 1, by omega⟩
  have h : runWithFunctions env (f + 1) retries inv msgs rounds acc =
      ⟨[Event.noDiagramMsg], msgs, retries, []⟩ := by
    rw [runWithFunctions, if_pos (by simp [hit, hnone])]
  refine ⟨h, ?_⟩
  rw [h]
  rfl

/-- Witness for C5 on a concrete iterate-turn with an empty panel. -/
theorem iterate_without_diagram_aborts_wit :
    runWithFunctions
        ⟨true, none, fun _ => [], fun _ => (true, []), fun _ => [], fun _ _ => []⟩
        5 0 0 [] [] [] = ⟨[Event.noDiagramMsg], [], 0, []⟩ ∧
    (runWithFunctions
        ⟨true, none, fun _ => [], fun _ => (true, []), fun _ => [], fun _ _ => []⟩
        5 0 0 [] [] []).events.countP isInvokeEvent = 0 :=
  iterate_without_diagram_aborts
    ⟨true, none, fun _ => [], fun _ => (true, []), fun _ => [], fun _ _ => []⟩
    5 0 0 [] [] [] rfl rfl (by omega)

/-- C9: only a response with zero tool calls can have its captured diagram
reach validation — every content submitted to the validator during a turn
is the freshly captured buffer of a tool-call-free model response; the
tool-call branch recurses before validation with a reinitialized buffer. -/
theorem validation_only_for_tool_free_responses (env : TurnEnv) :
    ∀ (fuel retries inv : Nat) (msgs : List Msg) (rounds : List ToolCallRound)
      (acc : List (Nat × List Char)) (k : Nat) (d : List Char),
      (k, d) ∈ (runWithFunctions env fuel retries inv msgs rounds acc).validated →
      (processStream (env.responses k)).toolCalls = [] ∧
        d = capturedDiagram env k := by
  intro fuel
  induction fuel with
  | zero =>
    intro retries inv msgs rounds acc k d h
    rw [runWithFunctions] at h
    simp at h
  | succ f ih =>
    intro retries inv msgs rounds acc k d h
    rw [runWithFunctions] at h
    by_cases hg : (env.isIterate && env.currentDiagram.isNone) = true
    · rw [if_pos hg] at h
      simp at h
    · rw [if_neg hg] at h
      simp only at h
      by_cases hE : (processStream (env.responses inv)).toolCalls.isEmpty = true
      · rw [if_pos hE] at h
        have hEmpty : (processStream (env.responses inv)).toolCalls = [] :=
          List.isEmpty_iff.mp hE
        by_cases hv : (env.validate (processStream (env.responses inv)).diagram).1 = true
        · rw [if_pos hv] at h
          simp only [List.mem_singleton, Prod.mk.injEq] at h
          refine ⟨h.1 ▸ hEmpty, ?_⟩
          rw [capturedDiagram, h.1]
          exact h.2
        · rw [if_neg hv] at h
          by_cases hr : (handleFailure retries msgs
              (processStream (env.responses inv)).diagram
              (env.validate (processStream (env.responses inv)).diagram).2).2.2 = true
          · rw [if_pos hr] at h
            simp only [List.mem_cons, Prod.mk.injEq] at h
            rcases h with ⟨hk, hd⟩ | h
            · refine ⟨hk ▸ hEmpty, ?_⟩
              rw [capturedDiagram, hk]
              exact hd
            · exact ih _ _ _ _ _ k d h
          · rw [if_neg hr] at h
            simp only [List.mem_singleton, Prod.mk.injEq] at h
            refine ⟨h.1 ▸ hEmpty, ?_⟩
            rw [capturedDiagram, h.1]
            exact h.2
      · rw [if_neg hE] at h
        simp only at h
        exact ih _ _ _ _ _ k d h

/-- Witness for C9 on a concrete run: the first response issues a tool
call, the second captures a diagram that fails validation, the third
captures one that passes; every validated pair satisfies the theorem. -/
theorem validation_only_for_tool_free_responses_wit :
    ((1 : Nat), "``g".data) ∈
      (runWithFunctions
        ⟨false, none,
          fun k => if k = 0 then [Part.tool 7] else [Part.text "``g".data],
          fun _ => (true, []), fun _ => [], fun _ _ => []⟩
        5 0 0 [] [] []).validated ∧
    (processStream
      ((fun k => if k = 0 then [Part.tool 7] else [Part.text "``g".data]) 1)).toolCalls
        = [] ∧
    "``g".data = capturedDiagram
      ⟨false, none,
        fun k => if k = 0 then [Part.tool 7] else [Part.text "``g".data],
        fun _ => (true, []), fun _ => [], fun _ _ => []⟩ 1 :=
  ⟨by decide,
    validation_only_for_tool_free_responses
      ⟨false, none,
        fun k => if k = 0 then [Part.tool 7] else [Part.text "``g".data],
        fun _ => (true, []), fun _ => [], fun _ _ => []⟩
      5 0 0 [] [] [] 1 "``g".data (by decide)⟩

/-- The validator error reported for the k-th captured diagram. -/
def failError (env : TurnEnv) (k : Nat) : List Char :=
  (env.validate (capturedDiagram env k)).2

theorem handleFailure_retries (r : Nat) (m : List Msg) (d e : List Char) :
    (handleFailure r m d e).1 = r + 1 := by
  rw [handleFailure]
  by_cases h : r + 1 < 4 <;> simp [h]

theorem handleFailure_cont (r : Nat) (m : List Msg) (d e : List Char)
    (h : r + 1 < 4) : (handleFailure r m d e).2.2 = true := by
  rw [handleFailure]
  simp [h]

theorem handleFailure_stop (r : Nat) (m : List Msg) (d e : List Char)
    (h : ¬ (r + 1 < 4)) : (handleFailure r m d e).2.2 = false := by
  rw [handleFailure]
  simp [h]

theorem countP_retry_proseOut (l : List (List Char)) :
    (l.map Event.proseOut).countP isRetryEvent = 0 := by
  rw [List.countP_map]
  induction l with
  | nil => rfl
  | cons a as ih => simp [isRetryEvent, ih]

theorem countP_retry_proseOut' (l : List (List Char)) :
    List.countP (fun s => isRetryEvent (Event.proseOut s)) l = 0 := by
  induction l with
  | nil => rfl
  | cons a as ih => simp [List.countP_cons, isRetryEvent, ih]

/-- One failing round that retries: with the guard passed, no tool calls in
the response, the validator failing, and `retries + 1 < 4`, the loop pushes
the retry message and recurses with the incremented counter. -/
theorem run_fail_retry_step (env : TurnEnv) (f retries inv : Nat)
    (msgs : List Msg) (rounds : List ToolCallRound)
    (acc : List (Nat × List Char))
    (hguard : (env.isIterate && env.currentDiagram.isNone) = false)
    (hnotool : (processStream (env.responses inv)).toolCalls = [])
    (hfail : (env.validate (processStream (env.responses inv)).diagram).1 = false)
    (hlt : retries + 1 < 4) :
    runWithFunctions env (f + 1) retries inv msgs rounds acc =
      ⟨(Event.modelInvoked inv ::
          (processStream (env.responses inv)).prose.map Event.proseOut) ++
        Event.retryMsg (failError env inv) (capturedDiagram env inv) ::
          (runWithFunctions env f (retries + 1) (inv + 1)
            (handleFailure retries msgs (capturedDiagram env inv)
              (failError env inv)).2.1 rounds acc).events,
        (runWithFunctions env f (retries + 1) (inv + 1)
          (handleFailure retries msgs (capturedDiagram env inv)
            (failError env inv)).2.1 rounds acc).messages,
        (runWithFunctions env f (retries + 1) (inv + 1)
          (handleFailure retries msgs (capturedDiagram env inv)
            (failError env inv)).2.1 rounds acc).retries,
        (inv, capturedDiagram env inv) ::
          (runWithFunctions env f (retries + 1) (inv + 1)
            (handleFailure retries msgs (capturedDiagram env inv)
              (failError env inv)).2.1 rounds acc).validated⟩ := by
  rw [runWithFunctions, if_neg (by simp [hguard])]
  simp only [hnotool, List.isEmpty_nil, if_true, hfail,
    handleFailure_cont retries msgs _ _ hlt, Bool.false_eq_true, if_false,
    handleFailure_retries, capturedDiagram, failError]

/-- One failing round that abandons: with `retries + 1 ≥ 4`, the loop
surfaces the failing diagram and its error and stops. -/
theorem run_abandon_step (env : TurnEnv) (f retries inv : Nat)
    (msgs : List Msg) (rounds : List ToolCallRound)
    (acc : List (Nat × List Char))
    (hguard : (env.isIterate && env.currentDiagram.isNone) = false)
    (hnotool : (processStream (env.responses inv)).toolCalls = [])
    (hfail : (env.validate (processStream (env.responses inv)).diagram).1 = false)
    (hge : ¬ (retries + 1 < 4)) :
    runWithFunctions env (f + 1) retries inv msgs rounds acc =
      ⟨(Event.modelInvoked inv ::
          (processStream (env.responses inv)).prose.map Event.proseOut) ++
        [Event.abandoned (failError env inv) (capturedDiagram env inv)],
        (handleFailure retries msgs (capturedDiagram env inv)
          (failError env inv)).2.1,
        retries + 1, [(inv, capturedDiagram env inv)]⟩ := by
  rw [runWithFunctions, if_neg (by simp [hguard])]
  simp only [hnotool, List.isEmpty_nil, if_true, hfail,
    handleFailure_stop retries msgs _ _ hge, Bool.false_eq_true, if_false,
    handleFailure_retries, capturedDiagram, failError]

theorem run_always_fail_aux (env : TurnEnv)
    (hguard : (env.isIterate && env.currentDiagram.isNone) = false)
    (hnotool : ∀ k, (processStream (env.responses k)).toolCalls = [])
    (hfail : ∀ d, (env.validate d).1 = false) :
    ∀ (c m retries inv : Nat) (msgs : List Msg) (rounds : List ToolCallRound)
      (acc : List (Nat × List Char)), retries + c = 3 → c ≤ m →
      (runWithFunctions env (m + 1) retries inv msgs rounds acc).retries = 4 ∧
      (runWithFunctions env (m + 1) retries inv msgs rounds
        acc).events.countP isRetryEvent = c ∧
      (runWithFunctions env (m + 1) retries inv msgs rounds acc).validated =
        (List.range (c + 1)).map
          (fun i => (inv + i, capturedDiagram env (inv + i))) ∧
      ∃ evs, (runWithFunctions env (m + 1) retries inv msgs rounds acc).events =
        evs ++ [Event.abandoned (failError env (inv + c))
          (capturedDiagram env (inv + c))] := by
  intro c
  induction c with
  | zero =>
    intro m retries inv msgs rounds acc hr hm
    have h3 : retries = 3 := by omega
    subst h3
    rw [run_abandon_step env m 3 inv msgs rounds acc hguard (hnotool inv)
      (hfail _) (by omega)]
    refine ⟨rfl, ?_, by simp [List.range_succ], ?_⟩
    · simp [List.countP_cons, List.countP_append, countP_retry_proseOut',
        Function.comp_def, isRetryEvent]
    · exact ⟨Event.modelInvoked inv ::
        (processStream (env.responses inv)).prose.map Event.proseOut, by simp⟩
  | succ c ih =>
    intro m retries inv msgs rounds acc hr hm
    obtain ⟨m', rfl⟩ : ∃ m', m = m' + 1 := ⟨m - 1, by omega⟩
    rw [run_fail_retry_step env (m' + 1) retries inv msgs rounds acc hguard
      (hnotool inv) (hfail _) (by omega)]
    obtain ⟨ih1, ih2, ih3, evs, ih4⟩ := ih m' (retries + 1) (inv + 1)
      (handleFailure retries msgs (capturedDiagram env inv)
        (failError env inv)).2.1 rounds acc (by omega) (by omega)
    refine ⟨ih1, ?_, ?_, ?_⟩
    · show List.countP isRetryEvent ((Event.modelInvoked inv ::
        (processStream (env.responses inv)).prose.map Event.proseOut) ++
        Event.retryMsg (failError env inv) (capturedDiagram env inv) ::
          (runWithFunctions env (m' + 1) (retries + 1) (inv + 1)
            (handleFailure retries msgs (capturedDiagram env inv)
              (failError env inv)).2.1 rounds acc).events) = c + 1
      simp [List.countP_cons, List.countP_append, List.countP_map,
        countP_retry_proseOut', Function.comp_def, isRetryEvent, ih2]
    · show ((inv, capturedDiagram env inv) ::
        (runWithFunctions env (m' + 1) (retries + 1) (inv + 1)
          (handleFailure retries msgs (capturedDiagram env inv)
            (failError env inv)).2.1 rounds acc).validated) =
        (List.range (c + 1 + 1)).map
          (fun i => (inv + i, capturedDiagram env (inv + i)))
      rw [ih3]
      conv_rhs => rw [List.range_succ_eq_map, List.map_cons, List.map_map]
      congr 1
      apply List.map_congr_left
      intro a _
      simp only [Function.comp_apply, Nat.succ_eq_add_one]
      have h6 : inv + 1 + a = inv + (a + 1) := by omega
      rw [h6]
    · refine ⟨(Event.modelInvoked inv ::
        (processStream (env.responses inv)).prose.map Event.proseOut) ++
        Event.retryMsg (failError env inv) (capturedDiagram env inv) :: evs, ?_⟩
      show ((Event.modelInvoked inv ::
        (processStream (env.responses inv)).prose.map Event.proseOut) ++
        Event.retryMsg (failError env inv) (capturedDiagram env inv) ::
          (runWithFunctions env (m' + 1) (retries + 1) (inv + 1)
            (handleFailure retries msgs (capturedDiagram env inv)
              (failError env inv)).2.1 rounds acc).events) = _
      have h7 : inv + (c + 1) = inv + 1 + c := by omega
      rw [h7, ih4]
      simp [List.append_assoc]

/-- C1 (amended): when the validator rejects every candidate and no
response issues tool calls, the retry counter reaches exactly the ceiling 4
and never exceeds it; exactly 4 validation failures occur (invocations
0–3), only 3 retry messages are sent, and the turn ends abandoned with the
4th failing diagram text and its error — a 5th validator call never
happens. -/
theorem retry_ceiling_abandon (env : TurnEnv) (fuel : Nat) (msgs0 : List Msg)
    (hguard : (env.isIterate && env.currentDiagram.isNone) = false)
    (hnotool : ∀ k, (processStream (env.responses k)).toolCalls = [])
    (hfail : ∀ d, (env.validate d).1 = false) (hfuel : 4 ≤ fuel) :
    (runWithFunctions env fuel 0 0 msgs0 [] []).retries = 4 ∧
    (runWithFunctions env fuel 0 0 msgs0 [] []).events.countP isRetryEvent = 3 ∧
    (runWithFunctions env fuel 0 0 msgs0 [] []).validated =
      (List.range 4).map (fun i => (i, capturedDiagram env i)) ∧
    ∃ evs, (runWithFunctions env fuel 0 0 msgs0 [] []).events =
      evs ++ [Event.abandoned (failError env 3) (capturedDiagram env 3)] := by
  obtain ⟨m, rfl⟩ : ∃ m, fuel = m + 1 := ⟨fuel - 1, by omega⟩
  obtain ⟨h1, h2, h3, h4⟩ :=
    run_always_fail_aux env hguard hnotool hfail 3 m 0 0 msgs0 [] []
      (by omega) (by omega)
  refine ⟨h1, h2, ?_, by simpa using h4⟩
  rw [h3]
  simp

/-- A concrete turn whose validator rejects everything: every response is
the single text chunk `"``x"` (which flips diagram capture), no tool calls,
and the validator always fails with error `"err"`. -/
def alwaysFailEnv : TurnEnv :=
  ⟨false, none, fun _ => [Part.text "``x".data],
    fun _ => (false, "err".data), fun _ => [], fun _ _ => []⟩

/-- C1 counterexample: in a run where the validator fails at every attempt,
only 4 validation failures and 3 retries happen before abandonment — not 5
failures and 4 retries as the claim states; the validator is never called a
5th time, so no 5th failing diagram exists to be surfaced. -/
theorem retry_ceiling_cex :
    (runWithFunctions alwaysFailEnv 10 0 0 [] [] []).validated.length = 4 ∧
    (runWithFunctions alwaysFailEnv 10 0 0 [] [] []).events.countP
      isRetryEvent = 3 ∧
    ¬ ((runWithFunctions alwaysFailEnv 10 0 0 [] [] []).validated.length = 5) ∧
    ¬ ((runWithFunctions alwaysFailEnv 10 0 0 [] [] []).events.countP
      isRetryEvent = 4) := by decide

/-- Witness for C1's amended theorem on the concrete always-failing turn. -/
theorem retry_ceiling_abandon_wit :
    (runWithFunctions alwaysFailEnv 10 0 0 [] [] []).retries = 4 ∧
    (runWithFunctions alwaysFailEnv 10 0 0 [] [] []).events.countP
      isRetryEvent = 3 ∧
    (runWithFunctions alwaysFailEnv 10 0 0 [] [] []).validated =
      (List.range 4).map (fun i => (i, capturedDiagram alwaysFailEnv i)) ∧
    ∃ evs, (runWithFunctions alwaysFailEnv 10 0 0 [] [] []).events =
      evs ++ [Event.abandoned (failError alwaysFailEnv 3)
        (capturedDiagram alwaysFailEnv 3)] :=
  retry_ceiling_abandon alwaysFailEnv 10 [] rfl (fun _ => rfl) (fun _ => rfl)
    (by omega)

/-- Modelled from the spec, for comparison with the code's condition: the
diagram text lacks the expected diagram-type keyword immediately after the
opening fence, i.e. it nowhere contains the fence marker immediately
followed by the keyword. -/
def lacksKeywordAfterFence (d : List Char) : Bool := !(hasSub fenceOpenTag d)

/-- C6 counterexample: on a first-failure diagram whose text lacks the
keyword immediately after the opening fence but contains it elsewhere, the
code injects the nested-definition instruction, not the missing-keyword
instruction the claim prescribes. -/
theorem corrective_injection_cex :
    lacksKeywordAfterFence "``` mermaid\nclassDiagram".data = true ∧
    Msg.keywordFix ∉
      (handleFailure 0 [] "``` mermaid\nclassDiagram".data "e".data).2.1 ∧
    Msg.nestingFix ∈
      (handleFailure 0 [] "``` mermaid\nclassDiagram".data "e".data).2.1 := by
  refine ⟨by decide, by decide, by decide⟩

/-- C6 (amended): on the first validation failure of a turn exactly one
corrective instruction is injected — the missing-keyword one when the
diagram text does not contain the keyword anywhere, otherwise the
nested-definition one — followed by the retry message; on every later
failure no corrective instruction is injected. -/
theorem corrective_injection_first_only :
    (∀ (msgs : List Msg) (d e : List Char),
      (handleFailure 0 msgs d e).2.1 =
        (if hasSub mermaidKw d then msgs ++ [Msg.nestingFix]
          else msgs ++ [Msg.keywordFix]) ++ [Msg.retryFix e d]) ∧
    (∀ (r : Nat) (msgs : List Msg) (d e : List Char), 1 ≤ r →
      (handleFailure r msgs d e).2.1 =
        if r + 1 < 4 then msgs ++ [Msg.retryFix e d] else msgs) := by
  constructor
  · intro msgs d e
    rw [handleFailure]
    simp
  · intro r msgs d e hr
    rw [handleFailure]
    have h1 : ¬ (r + 1 = 1) := by omega
    by_cases h2 : r + 1 < 4 <;> simp [h1, h2]

/-- Witness for C6's amended theorem: a keyword-free first failure injects
the missing-keyword instruction; a second failure injects only the retry
message. -/
theorem corrective_injection_first_only_wit :
    ((handleFailure 0 [] "graph TB".data "e".data).2.1 =
      (if hasSub mermaidKw "graph TB".data then [] ++ [Msg.nestingFix]
        else [] ++ [Msg.keywordFix]) ++
        [Msg.retryFix "e".data "graph TB".data]) ∧
    (1 ≤ 1) ∧
    ((handleFailure 1 [] "d".data "e".data).2.1 =
      if 1 + 1 < 4 then [] ++ [Msg.retryFix "e".data "d".data] else []) :=
  ⟨corrective_injection_first_only.1 [] "graph TB".data "e".data,
    by omega,
    corrective_injection_first_only.2 1 [] "d".data "e".data (by omega)⟩

end MermAId
